import Mathlib

/-!
Shallow embedding of the `expiringmap` crate (src/lib.rs): an `ExpiringMap`
wrapper around a hash map that attaches a TTL to every entry, with a lazy
expiry read path and an amortized vacuum policy, plus an `ExpiringSet`
specialization with unit values.

Modelling conventions:
- `Instant` (Rust monotonic clock) is a `Nat` tick count; `Duration` is a
  `Nat`.  `Instant::elapsed` / `Instant::duration_since` saturate at zero in
  Rust, which coincides with `Nat` truncated subtraction.
- Each Rust method reads the clock through `Instant::now()`; an operation in
  the model takes the observation time `now` as an explicit parameter.
- The backing `HashMap<K, ExpiryValue<V>>` is modelled as an association list
  `Store K V`; real hash-map states have no duplicate keys, captured by the
  `NodupKeys` predicate where a proof needs it.
- Methods taking `&mut self` become functions returning the result paired
  with the updated state; `get_mut`'s write capability (mutating the value
  behind the returned reference) is modelled by `get_mut_write`.
-/

namespace ExpiringMapSpec

/-- `ExpiryValue<T>`: a value plus its expiry information (src/lib.rs:30).
`inserted` is an `Instant` (monotonic clock ticks), `ttl` a `Duration`
(ticks); both are plain `Nat` in the model. -/
structure ExpiryValue (T : Type) where
  inserted : Nat
  ttl : Nat
  value : T
deriving DecidableEq, Repr

namespace ExpiryValue

variable {T : Type}

/-- `self.inserted.elapsed()` observed at time `now` (saturating). -/
def elapsed (e : ExpiryValue T) (now : Nat) : Nat :=
  now - e.inserted

/-- `remaining` (src/lib.rs:56): `self.ttl.saturating_sub(self.inserted.elapsed())`. -/
def remaining (e : ExpiryValue T) (now : Nat) : Nat :=
  e.ttl - e.elapsed now

/-- `expired` (src/lib.rs:66): `self.remaining().is_zero()`. -/
def expired (e : ExpiryValue T) (now : Nat) : Bool :=
  e.remaining now == 0

/-- `not_expired` (src/lib.rs:71): `!self.expired()`. -/
def not_expired (e : ExpiryValue T) (now : Nat) : Bool :=
  !(e.expired now)

theorem expired_iff (e : ExpiryValue T) (now : Nat) :
    e.expired now = true ↔ e.ttl ≤ now - e.inserted := by
  unfold expired remaining elapsed
  simp only [beq_iff_eq]
  omega

theorem not_expired_iff (e : ExpiryValue T) (now : Nat) :
    e.not_expired now = true ↔ now - e.inserted < e.ttl := by
  unfold not_expired expired remaining elapsed
  simp only [Bool.not_eq_true', beq_eq_false_iff_ne, ne_eq]
  omega

end ExpiryValue

/-! The backing store: `HashMap<K, ExpiryValue<V>>` as an association list.
Real hash-map states never hold two entries with the same key; `NodupKeys`
states that, and is assumed where a proof needs it. -/

/-- The backing hash table `ExpiringMapInner<K, V>` (src/lib.rs:26). -/
abbrev Store (K V : Type) := List (K × ExpiryValue V)

variable {K V : Type} [DecidableEq K]

/-- `HashMap::get_key_value`: the stored pair at key `k`, if any. -/
def storeFind (k : K) (l : Store K V) : Option (K × ExpiryValue V) :=
  l.find? (fun p => decide (p.1 = k))

/-- `HashMap::get`: the stored entry at key `k`, if any. -/
def storeGet (k : K) (l : Store K V) : Option (ExpiryValue V) :=
  (storeFind k l).map Prod.snd

/-- Physical deletion of key `k`, as done by `HashMap::insert` (replacement),
`HashMap::remove` and `HashMap::remove_entry`. -/
def storeErase (k : K) (l : Store K V) : Store K V :=
  l.filter (fun p => decide (p.1 ≠ k))

/-- `HashMap::insert`: store `e` at `k`, unconditionally overwriting; returns
the previously stored entry, if any, together with the new table. -/
def storeInsert (k : K) (e : ExpiryValue V) (l : Store K V) :
    Option (ExpiryValue V) × Store K V :=
  (storeGet k l, (k, e) :: storeErase k l)

/-- A real hash-map state: no two stored entries share a key. -/
def NodupKeys (l : Store K V) : Prop :=
  (l.map Prod.fst).Nodup

instance (l : Store K V) : Decidable (NodupKeys l) := by
  unfold NodupKeys; infer_instance

/-- `ExpiringMap<K, V>` (src/lib.rs:78): the wrapper around the hash map
that adds TTLs, with the `last_size` vacuum watermark. -/
structure ExpiringMap (K V : Type) where
  last_size : Nat
  inner : Store K V
deriving DecidableEq, Repr

namespace ExpiringMap

/-- `MINIMUM_VACUUM_SIZE` (src/lib.rs:103). -/
def MINIMUM_VACUUM_SIZE : Nat := 8

/-- `with_capacity` (src/lib.rs:111); the capacity hint only pre-sizes the
backing table and has no observable effect in the model. -/
def with_capacity (capacity : Nat) : ExpiringMap K V :=
  { inner := [], last_size := MINIMUM_VACUUM_SIZE }

/-- `new` (src/lib.rs:106). -/
def new : ExpiringMap K V :=
  with_capacity 0

/-- `Default::default` for `ExpiringMap` (src/lib.rs:327). -/
def mkDefault : ExpiringMap K V :=
  new

/-- `vacuum` (src/lib.rs:120): retain entries with
`now.duration_since(inserted) < ttl`, then update `last_size`. -/
def vacuum (now : Nat) (m : ExpiringMap K V) : ExpiringMap K V :=
  let inner := m.inner.filter (fun p => decide (now - p.2.inserted < p.2.ttl))
  { inner := inner
    last_size :=
      if inner.length > MINIMUM_VACUUM_SIZE then inner.length
      else MINIMUM_VACUUM_SIZE }

/-- `vacuum_if_needed` (src/lib.rs:134). -/
def vacuum_if_needed (now : Nat) (m : ExpiringMap K V) : ExpiringMap K V :=
  if (m.last_size * 3) / 2 < m.inner.length then vacuum now m else m

/-- `get_meta` (src/lib.rs:141): `self.inner.get(key).filter(|x| x.not_expired())`. -/
def get_meta (now : Nat) (k : K) (m : ExpiringMap K V) : Option (ExpiryValue V) :=
  (storeGet k m.inner).filter (fun x => x.not_expired now)

/-- `get` (src/lib.rs:150): `self.get_meta(key).map(|v| &v.value)`. -/
def get (now : Nat) (k : K) (m : ExpiringMap K V) : Option V :=
  (m.get_meta now k).map (fun v => v.value)

/-- `get_key_value` (src/lib.rs:160). -/
def get_key_value (now : Nat) (k : K) (m : ExpiringMap K V) : Option (K × V) :=
  ((storeFind k m.inner).filter (fun p => p.2.not_expired now)).map
    (fun p => (p.1, p.2.value))

/-- `get_mut` (src/lib.rs:172), read part: the value the returned `&mut V`
points to, if any. -/
def get_mut (now : Nat) (k : K) (m : ExpiringMap K V) : Option V :=
  ((storeGet k m.inner).filter (fun x => x.not_expired now)).map
    (fun v => v.value)

/-- `get_mut` (src/lib.rs:172), write part: the state after the caller stores
`v'` through the returned `&mut V` (a no-op when `get_mut` returns `None`). -/
def get_mut_write (now : Nat) (k : K) (v' : V) (m : ExpiringMap K V) :
    ExpiringMap K V :=
  { m with
    inner := m.inner.map (fun p =>
      if p.1 = k ∧ p.2.not_expired now then (p.1, { p.2 with value := v' })
      else p) }

/-- `insert` (src/lib.rs:184): vacuum-if-needed, then store a fresh entry
stamped `now`, returning the replaced entry filtered by `not_expired`. -/
def insert (now : Nat) (k : K) (v : V) (ttl : Nat) (m : ExpiringMap K V) :
    Option (ExpiryValue V) × ExpiringMap K V :=
  let m := vacuum_if_needed now m
  let entry : ExpiryValue V := { inserted := now, ttl := ttl, value := v }
  let (old, inner) := storeInsert k entry m.inner
  (old.filter (fun e => e.not_expired now), { m with inner := inner })

/-- `contains_key` (src/lib.rs:197):
`self.get_meta(key).is_some_and(ExpiryValue::not_expired)`. -/
def contains_key (now : Nat) (k : K) (m : ExpiringMap K V) : Bool :=
  (m.get_meta now k).any (fun e => e.not_expired now)

/-- `remove` (src/lib.rs:206):
`self.inner.remove(key).as_ref().is_some_and(ExpiryValue::not_expired)`. -/
def remove (now : Nat) (k : K) (m : ExpiringMap K V) : Bool × ExpiringMap K V :=
  ((storeGet k m.inner).any (fun e => e.not_expired now),
   { m with inner := storeErase k m.inner })

/-- `len` (src/lib.rs:223). -/
def len (m : ExpiringMap K V) : Nat :=
  m.inner.length

/-- `is_empty` (src/lib.rs:228): `self.inner.len() == 0`. -/
def is_empty (m : ExpiringMap K V) : Bool :=
  m.inner.length == 0

/-- `shrink_to_fit` (src/lib.rs:244): vacuums; capacity release is
unobservable in the model. -/
def shrink_to_fit (now : Nat) (m : ExpiringMap K V) : ExpiringMap K V :=
  vacuum now m

/-- `shrink_to` (src/lib.rs:252): vacuums; capacity release is unobservable
in the model. -/
def shrink_to (now : Nat) (min_capacity : Nat) (m : ExpiringMap K V) :
    ExpiringMap K V :=
  vacuum now m

/-- `remove_entry` (src/lib.rs:258):
`self.inner.remove_entry(key).filter(|(_, v)| v.not_expired()).map(|(k, v)| (k, v.value))`. -/
def remove_entry (now : Nat) (k : K) (m : ExpiringMap K V) :
    Option (K × V) × ExpiringMap K V :=
  (((storeFind k m.inner).filter (fun p => p.2.not_expired now)).map
     (fun p => (p.1, p.2.value)),
   { m with inner := storeErase k m.inner })

end ExpiringMap

/-- `ExpiringSet<K>` (src/lib.rs:85): `ExpiringMap` with `V = ()`. -/
structure ExpiringSet (K : Type) where
  toMap : ExpiringMap K Unit
deriving DecidableEq, Repr

namespace ExpiringSet

/-- `ExpiringSet::with_capacity` (src/lib.rs:277). -/
def with_capacity (capacity : Nat) : ExpiringSet K :=
  ⟨ExpiringMap.with_capacity capacity⟩

/-- `ExpiringSet::new` (src/lib.rs:272). -/
def new : ExpiringSet K :=
  with_capacity 0

/-- `ExpiringSet::insert` (src/lib.rs:282): the same steps as
`ExpiringMap::insert` with a unit value, then `.is_some()`. -/
def insert (now : Nat) (k : K) (ttl : Nat) (s : ExpiringSet K) :
    Bool × ExpiringSet K :=
  let m := ExpiringMap.vacuum_if_needed now s.toMap
  let entry : ExpiryValue Unit := { inserted := now, ttl := ttl, value := () }
  let (old, inner) := storeInsert k entry m.inner
  ((old.filter (fun e => e.not_expired now)).isSome, ⟨{ m with inner := inner }⟩)

/-- `ExpiringSet::contains` (src/lib.rs:296): `self.0.contains_key(key)`. -/
def contains (now : Nat) (k : K) (s : ExpiringSet K) : Bool :=
  s.toMap.contains_key now k

/-- `ExpiringSet::take` (src/lib.rs:306):
`self.0.remove_entry(key).map(|(k, ())| k)`. -/
def take (now : Nat) (k : K) (s : ExpiringSet K) : Option K × ExpiringSet K :=
  let (r, m) := s.toMap.remove_entry now k
  (r.map Prod.fst, ⟨m⟩)

end ExpiringSet

/-! Helper lemmas about `Option.filter`, `Option.any` and the store
primitives. -/

theorem filter_eq_some {α : Type} (o : Option α) (p : α → Bool) (a : α) :
    o.filter p = some a ↔ o = some a ∧ p a = true := by
  cases o with
  | none => simp [Option.filter]
  | some b =>
    simp only [Option.filter, Option.some.injEq]
    constructor
    · intro h
      by_cases hb : p b = true
      · simp [hb] at h
        exact ⟨by rw [h], by rw [← h]; exact hb⟩
      · simp [Bool.not_eq_true] at hb
        simp [hb] at h
    · rintro ⟨hb, hp⟩
      cases hb
      simp [hp]

theorem any_eq_true {α : Type} (o : Option α) (p : α → Bool) :
    o.any p = true ↔ ∃ a, o = some a ∧ p a = true := by
  cases o <;> simp

theorem filter_congr_pred {α : Type} (o : Option α) (p q : α → Bool)
    (h : ∀ a, p a = q a) : o.filter p = o.filter q := by
  cases o with
  | none => rfl
  | some a => simp only [Option.filter, h a]

theorem storeFind_key {k : K} {l : Store K V} {p : K × ExpiryValue V}
    (h : storeFind k l = some p) : p.1 = k := by
  have := List.find?_some h
  simpa using this

theorem storeFind_mem {k : K} {l : Store K V} {p : K × ExpiryValue V}
    (h : storeFind k l = some p) : p ∈ l :=
  List.mem_of_find?_eq_some h

theorem storeFind_none_iff (k : K) (l : Store K V) :
    storeFind k l = none ↔ ∀ p ∈ l, p.1 ≠ k := by
  unfold storeFind
  rw [List.find?_eq_none]
  constructor
  · intro h p hp
    have := h p hp
    simpa using this
  · intro h p hp
    simpa using h p hp

theorem storeFind_cons_of_pos {a : K × ExpiryValue V} (l : Store K V) (k : K)
    (hk : a.1 = k) : storeFind k (a :: l) = some a := by
  unfold storeFind
  rw [List.find?_cons_of_pos]
  simp [hk]

theorem storeFind_cons_of_neg {a : K × ExpiryValue V} (l : Store K V) (k : K)
    (hk : a.1 ≠ k) : storeFind k (a :: l) = storeFind k l := by
  unfold storeFind
  rw [List.find?_cons_of_neg]
  simp [hk]

/-- In a duplicate-free store, looking a key up after a `retain`-style filter
is the same as looking it up first and filtering the result. -/
theorem storeFind_filter {l : Store K V} (hnd : NodupKeys l) (k : K)
    (q : K × ExpiryValue V → Bool) :
    storeFind k (l.filter q) = (storeFind k l).filter q := by
  induction l with
  | nil => rfl
  | cons a l ih =>
    have hnd' : NodupKeys l := (List.nodup_cons.mp hnd).2
    by_cases hk : a.1 = k
    · -- the head is the unique entry with key `k`
      have hnotin : a.1 ∉ l.map Prod.fst := (List.nodup_cons.mp hnd).1
      have hnonef : storeFind k (l.filter q) = none := by
        rw [storeFind_none_iff]
        intro p hp h1
        exact hnotin (by
          rw [hk, ← h1]
          exact List.mem_map_of_mem Prod.fst (List.mem_of_mem_filter hp))
      by_cases hq : q a = true
      · rw [List.filter_cons_of_pos hq, storeFind_cons_of_pos (l.filter q) k hk,
          storeFind_cons_of_pos l k hk]
        simp [Option.filter, hq]
      · rw [List.filter_cons_of_neg (by simp [hq]), hnonef,
          storeFind_cons_of_pos l k hk]
        simp [Option.filter, hq]
    · by_cases hq : q a = true
      · rw [List.filter_cons_of_pos hq, storeFind_cons_of_neg _ _ hk,
          storeFind_cons_of_neg _ _ hk, ih hnd']
      · rw [List.filter_cons_of_neg (by simp [hq]),
          storeFind_cons_of_neg _ _ hk, ih hnd']

theorem storeFind_erase_self (k : K) (l : Store K V) :
    storeFind k (storeErase k l) = none := by
  rw [storeFind_none_iff]
  intro p hp
  have := List.of_mem_filter hp
  simpa using this

theorem storeGet_eq_some {k : K} {l : Store K V} {e : ExpiryValue V} :
    storeGet k l = some e ↔ ∃ k', storeFind k l = some (k', e) := by
  unfold storeGet
  cases h : storeFind k l with
  | none => simp
  | some p =>
    cases p with
    | mk a b => simp [Prod.ext_iff, eq_comm]

/-- `vacuum`'s retain predicate `now.duration_since(inserted) < ttl` agrees
with `ExpiryValue::not_expired` at the same observation time. -/
theorem vacuum_pred_eq (now : Nat) (p : K × ExpiryValue V) :
    decide (now - p.2.inserted < p.2.ttl) = p.2.not_expired now := by
  have h1 := ExpiryValue.not_expired_iff p.2 now
  by_cases h : now - p.2.inserted < p.2.ttl
  · rw [h1.mpr h]
    simpa using h
  · have h2 : p.2.not_expired now = false := by
      cases hb : p.2.not_expired now
      · rfl
      · exact absurd (h1.mp hb) h
    rw [h2]
    simpa using h

theorem vacuum_inner (now : Nat) (m : ExpiringMap K V) :
    (m.vacuum now).inner = m.inner.filter (fun p => p.2.not_expired now) := by
  unfold ExpiringMap.vacuum
  exact List.filter_congr (fun p _ => vacuum_pred_eq now p)

theorem vacuum_last_size (now : Nat) (m : ExpiringMap K V) :
    (m.vacuum now).last_size =
      max (m.vacuum now).inner.length ExpiringMap.MINIMUM_VACUUM_SIZE := by
  unfold ExpiringMap.vacuum ExpiringMap.MINIMUM_VACUUM_SIZE
  simp only []
  split <;> omega

/-- Claim C2: after `vacuum()` the store holds exactly the entries that were
not expired at the moment of the call (expired ones physically deleted, live
ones kept unchanged), and `last_size` becomes
`max(store length, MINIMUM_VACUUM_SIZE)` with `MINIMUM_VACUUM_SIZE = 8`. -/
theorem vacuum_spec (now : Nat) (m : ExpiringMap K V) :
    (∀ (k : K) (e : ExpiryValue V),
      (k, e) ∈ (m.vacuum now).inner ↔
        (k, e) ∈ m.inner ∧ e.not_expired now = true) ∧
    (m.vacuum now).last_size = max (m.vacuum now).inner.length 8 ∧
    ExpiringMap.MINIMUM_VACUUM_SIZE = 8 := by
  refine ⟨?_, vacuum_last_size now m, rfl⟩
  intro k e
  rw [vacuum_inner]
  simp [List.mem_filter]

/-- Claim C3: `vacuum_if_needed()` performs a full `vacuum()` iff the store
length strictly exceeds `(last_size * 3) / 2`, and otherwise leaves the whole
container (store and `last_size`) unchanged. -/
theorem vacuum_if_needed_spec (now : Nat) (m : ExpiringMap K V) :
    (m.inner.length > (m.last_size * 3) / 2 →
      m.vacuum_if_needed now = m.vacuum now) ∧
    (¬ m.inner.length > (m.last_size * 3) / 2 →
      m.vacuum_if_needed now = m) := by
  unfold ExpiringMap.vacuum_if_needed
  constructor
  · intro h
    simp [h]
  · intro h
    rw [if_neg]
    omega

/-- Witness for C3: a map over the threshold vacuums, one under it is left
untouched. -/
theorem vacuum_if_needed_spec_witness :
    (ExpiringMap.vacuum_if_needed 5
        (⟨0, [(0, ⟨0, 1, 0⟩)]⟩ : ExpiringMap Nat Nat) =
      ExpiringMap.vacuum 5 ⟨0, [(0, ⟨0, 1, 0⟩)]⟩) ∧
    (ExpiringMap.vacuum_if_needed 5 (⟨8, []⟩ : ExpiringMap Nat Nat) =
      ⟨8, []⟩) :=
  ⟨(vacuum_if_needed_spec 5 ⟨0, [(0, ⟨0, 1, 0⟩)]⟩).1 (by decide),
   (vacuum_if_needed_spec 5 ⟨8, []⟩).2 (by decide)⟩

theorem option_filter_filter_map (o : Option (K × ExpiryValue V))
    (r : ExpiryValue V → Bool) :
    ((o.filter (fun p => r p.2)).map Prod.snd).filter r =
      (o.map Prod.snd).filter r := by
  cases o with
  | none => rfl
  | some p =>
    by_cases h : r p.2 = true
    · simp [Option.filter, h]
    · simp [Option.filter, h]

/-- The value `ExpiringMap::insert` returns is the previously stored entry
filtered by liveness at the time of the call, whether or not the implicit
vacuum ran first. -/
theorem insert_ret {m : ExpiringMap K V} (hnd : NodupKeys m.inner)
    (now : Nat) (k : K) (v : V) (ttl : Nat) :
    (m.insert now k v ttl).1 =
      (storeGet k m.inner).filter (fun e => e.not_expired now) := by
  unfold ExpiringMap.insert storeInsert
  simp only []
  unfold ExpiringMap.vacuum_if_needed
  split
  · rw [vacuum_inner]
    unfold storeGet
    rw [storeFind_filter hnd]
    exact option_filter_filter_map _ _
  · rfl

/-- Claim C1: `insert(k, v, t)` stores a fresh entry stamped with the current
time, unconditionally overwriting any entry at `k`, and returns the previous
entry exactly when one was physically present and not expired at the time of
the call. -/
theorem insert_spec {m : ExpiringMap K V} (hnd : NodupKeys m.inner)
    (now : Nat) (k : K) (v : V) (ttl : Nat) :
    storeFind k (m.insert now k v ttl).2.inner = some (k, ⟨now, ttl, v⟩) ∧
    (∀ e : ExpiryValue V,
      (m.insert now k v ttl).1 = some e ↔
        storeGet k m.inner = some e ∧ e.not_expired now = true) := by
  constructor
  · unfold ExpiringMap.insert storeInsert
    simp only []
    exact storeFind_cons_of_pos _ k rfl
  · intro e
    rw [insert_ret hnd]
    exact filter_eq_some _ _ e

/-- Witness for C1: inserting over a live entry returns it; the fresh entry
is stored. -/
theorem insert_spec_witness :
    let m : ExpiringMap Nat Nat := ⟨8, [(7, ⟨0, 5, 3⟩)]⟩
    storeFind 7 (m.insert 2 7 4 9).2.inner = some (7, ⟨2, 9, 4⟩) ∧
    ((m.insert 2 7 4 9).1 = some ⟨0, 5, 3⟩ ↔
      storeGet 7 m.inner = some ⟨0, 5, 3⟩ ∧
        ExpiryValue.not_expired ⟨0, 5, 3⟩ 2 = true) :=
  ⟨(insert_spec (by decide) 2 7 4 9).1,
   (insert_spec (by decide) 2 7 4 9).2 ⟨0, 5, 3⟩⟩

/-- Claim C4 counterexample: with `last_size = 8` and 13 stored entries that
are all expired at time 5, the store has grown past `(last_size * 3) / 2`,
yet the very next mutating call `remove(99)` performs no vacuum: the
container is unchanged, its length stays 13 while 0 entries are alive. -/
theorem mutating_vacuum_cex :
    let m : ExpiringMap Nat Nat :=
      ⟨8, (List.range 13).map (fun i => (i, ⟨0, 1, 0⟩))⟩
    m.inner.length > (m.last_size * 3) / 2 ∧
    (m.remove 5 99).2 = m ∧
    (m.remove 5 99).2.inner.length = 13 ∧
    ((m.remove 5 99).2.inner.filter (fun p => p.2.not_expired 5)).length = 0 := by
  decide

/-- Claim C4 as amended: only `insert` performs the vacuum-if-needed check
before touching the hash table; `remove` and `remove_entry` mutate the table
directly and never vacuum.  Whenever the store has grown past
`(last_size * 3) / 2`, the very next insert first runs a full vacuum, so the
resulting store length is at most the number of entries alive at that moment
plus the one freshly inserted entry. -/
theorem mutating_vacuum_amended (m : ExpiringMap K V) (now : Nat) (k : K)
    (v : V) (ttl : Nat) :
    (m.inner.length > (m.last_size * 3) / 2 →
      (m.insert now k v ttl).2 =
        ⟨(m.vacuum now).last_size,
         (k, ⟨now, ttl, v⟩) :: storeErase k (m.vacuum now).inner⟩ ∧
      (m.insert now k v ttl).2.inner.length ≤
        (m.inner.filter (fun p => p.2.not_expired now)).length + 1) ∧
    (m.remove now k).2 = ⟨m.last_size, storeErase k m.inner⟩ ∧
    (m.remove_entry now k).2 = ⟨m.last_size, storeErase k m.inner⟩ := by
  refine ⟨?_, rfl, rfl⟩
  intro h
  have hif : m.vacuum_if_needed now = m.vacuum now := by
    unfold ExpiringMap.vacuum_if_needed
    simp [h]
  have hstate : (m.insert now k v ttl).2 =
      ⟨(m.vacuum now).last_size,
       (k, ⟨now, ttl, v⟩) :: storeErase k (m.vacuum now).inner⟩ := by
    unfold ExpiringMap.insert storeInsert
    simp only [hif]
  refine ⟨hstate, ?_⟩
  rw [hstate]
  simp only [List.length_cons]
  have h1 : (storeErase k (m.vacuum now).inner).length ≤
      (m.vacuum now).inner.length := List.length_filter_le _ _
  have h2 : (m.vacuum now).inner.length =
      (m.inner.filter (fun p => p.2.not_expired now)).length := by
    rw [vacuum_inner]
  omega

/-- Witness for C4's amendment: a map of 13 expired entries past the
threshold; the next insert vacuums, leaving exactly the fresh entry. -/
theorem mutating_vacuum_amended_witness :
    let m : ExpiringMap Nat Nat :=
      ⟨8, (List.range 13).map (fun i => (i, ⟨0, 1, 0⟩))⟩
    (m.insert 5 99 4 7).2 =
      ⟨(m.vacuum 5).last_size,
       (99, ⟨5, 7, 4⟩) :: storeErase 99 (m.vacuum 5).inner⟩ ∧
    (m.insert 5 99 4 7).2.inner.length ≤
      (m.inner.filter (fun p => p.2.not_expired 5)).length + 1 :=
  (mutating_vacuum_amended _ 5 99 4 7).1 (by decide)

theorem get_mut_write_frame (now : Nat) (k : K) (v' : V) (m : ExpiringMap K V) :
    (m.get_mut_write now k v').inner.map (fun p => (p.1, p.2.inserted, p.2.ttl)) =
      m.inner.map (fun p => (p.1, p.2.inserted, p.2.ttl)) ∧
    (m.get_mut_write now k v').last_size = m.last_size := by
  unfold ExpiringMap.get_mut_write
  refine ⟨?_, rfl⟩
  simp only [List.map_map]
  apply List.map_congr_left
  intro p hp
  by_cases h : p.1 = k ∧ p.2.not_expired now
  · simp [h]
  · simp [h]

/-- Claim C5: every read (`get`, `get_meta`, `get_key_value`, `get_mut`,
`contains_key`) reports not-found exactly when the key is physically absent
or its entry is expired; reads are pure functions of the state, and writing
through `get_mut`'s reference changes only the value, never a key, an
`inserted` stamp or a `ttl`, and removes nothing. -/
theorem read_ops_spec (now : Nat) (k : K) (m : ExpiringMap K V) :
    (∀ e, m.get_meta now k = some e ↔
      storeGet k m.inner = some e ∧ e.not_expired now = true) ∧
    (m.get_meta now k = none ↔
      storeGet k m.inner = none ∨
        ∃ e, storeGet k m.inner = some e ∧ e.expired now = true) ∧
    (∀ v, m.get now k = some v ↔
      ∃ e, storeGet k m.inner = some e ∧ e.not_expired now = true ∧
        e.value = v) ∧
    (∀ p : K × V, m.get_key_value now k = some p ↔
      ∃ e, storeFind k m.inner = some (p.1, e) ∧ e.not_expired now = true ∧
        e.value = p.2) ∧
    (∀ v, m.get_mut now k = some v ↔
      ∃ e, storeGet k m.inner = some e ∧ e.not_expired now = true ∧
        e.value = v) ∧
    (m.contains_key now k = true ↔
      ∃ e, storeGet k m.inner = some e ∧ e.not_expired now = true) ∧
    (∀ v', (m.get_mut_write now k v').inner.map
        (fun p => (p.1, p.2.inserted, p.2.ttl)) =
      m.inner.map (fun p => (p.1, p.2.inserted, p.2.ttl)) ∧
      (m.get_mut_write now k v').last_size = m.last_size ∧
      (m.get_mut_write now k v').inner.length = m.inner.length) := by
  have hsg : storeGet k m.inner = (storeFind k m.inner).map Prod.snd := rfl
  refine ⟨?_, ?_, ?_, ?_, ?_, ?_, ?_⟩
  · intro e
    exact filter_eq_some _ _ e
  · cases hf : storeFind k m.inner with
    | none =>
      simp [ExpiringMap.get_meta, hsg, hf, Option.filter]
    | some p =>
      by_cases hl : p.2.not_expired now = true
      · have hex : p.2.expired now = false := by
          simpa [ExpiryValue.not_expired] using hl
        simp [ExpiringMap.get_meta, hsg, hf, Option.filter, hl, hex]
      · have hex : p.2.expired now = true := by
          cases hx : p.2.expired now
          · exact absurd (by simp [ExpiryValue.not_expired, hx]) hl
          · rfl
        simp [ExpiringMap.get_meta, hsg, hf, Option.filter, hl, hex]
  · intro v
    unfold ExpiringMap.get ExpiringMap.get_meta
    cases hf : storeGet k m.inner with
    | none => simp [Option.filter]
    | some e =>
      by_cases hl : e.not_expired now = true <;> simp [Option.filter, hl]
  · intro p
    cases p with
    | mk p1 p2 =>
      unfold ExpiringMap.get_key_value
      cases hf : storeFind k m.inner with
      | none => simp [Option.filter]
      | some q =>
        cases q with
        | mk a b =>
          by_cases hl : b.not_expired now = true <;>
            simp [Option.filter, hl, and_assoc]
  · intro v
    unfold ExpiringMap.get_mut
    cases hf : storeGet k m.inner with
    | none => simp [Option.filter]
    | some e =>
      by_cases hl : e.not_expired now = true <;> simp [Option.filter, hl]
  · unfold ExpiringMap.contains_key ExpiringMap.get_meta
    rw [any_eq_true]
    constructor
    · rintro ⟨e, he, hl⟩
      exact ⟨e, (filter_eq_some _ _ e).mp he⟩
    · rintro ⟨e, he, hl⟩
      exact ⟨e, (filter_eq_some _ _ e).mpr ⟨he, hl⟩, hl⟩
  · intro v'
    refine ⟨(get_mut_write_frame now k v' m).1,
      (get_mut_write_frame now k v' m).2, ?_⟩
    unfold ExpiringMap.get_mut_write
    simp

/-- Claim C6: `remove(k)` physically deletes whatever entry is stored at `k`
and returns true exactly when the removed entry was live; a second `remove`
returns false; `remove_entry(k)` deletes the same way and returns the stored
pair exactly when the removed entry was live. -/
theorem remove_spec (now now' : Nat) (k : K) (m : ExpiringMap K V) :
    (m.remove now k).2.inner = storeErase k m.inner ∧
    ((m.remove now k).1 = true ↔
      ∃ e, storeGet k m.inner = some e ∧ e.not_expired now = true) ∧
    ((m.remove now k).2.remove now' k).1 = false ∧
    (m.remove_entry now k).2.inner = storeErase k m.inner ∧
    (∀ p : K × V, (m.remove_entry now k).1 = some p ↔
      ∃ e, storeFind k m.inner = some (p.1, e) ∧ e.not_expired now = true ∧
        e.value = p.2) := by
  refine ⟨rfl, ?_, ?_, rfl, ?_⟩
  · unfold ExpiringMap.remove
    rw [any_eq_true]
  · unfold ExpiringMap.remove
    simp only []
    have : storeGet k (storeErase k m.inner) = none := by
      unfold storeGet
      rw [storeFind_erase_self]
      rfl
    rw [this]
    rfl
  · intro p
    cases p with
    | mk p1 p2 =>
      unfold ExpiringMap.remove_entry
      simp only []
      cases hf : storeFind k m.inner with
      | none => simp [Option.filter]
      | some q =>
        cases q with
        | mk a b =>
          by_cases hl : b.not_expired now = true <;>
            simp [Option.filter, hl, and_assoc]

/-- Claim C8: `last_size` starts at `MINIMUM_VACUUM_SIZE = 8` in every
freshly constructed container, only `vacuum` (and the operations that call
it) changes it, `vacuum` sets it to `max(store length, 8)`, and the
invariant `8 ≤ last_size` is preserved by every public operation. -/
theorem last_size_invariant (c min_c now : Nat) (m : ExpiringMap K V) (k : K)
    (v v' : V) (ttl : Nat) (s : ExpiringSet K) (kS : K) (ttlS : Nat) :
    ExpiringMap.MINIMUM_VACUUM_SIZE = 8 ∧
    (ExpiringMap.with_capacity c : ExpiringMap K V).last_size = 8 ∧
    (ExpiringMap.new : ExpiringMap K V).last_size = 8 ∧
    (ExpiringMap.mkDefault : ExpiringMap K V).last_size = 8 ∧
    (ExpiringSet.with_capacity c : ExpiringSet K).toMap.last_size = 8 ∧
    (ExpiringSet.new : ExpiringSet K).toMap.last_size = 8 ∧
    (m.vacuum now).last_size = max (m.vacuum now).inner.length 8 ∧
    8 ≤ (m.vacuum now).last_size ∧
    (8 ≤ m.last_size → 8 ≤ (m.vacuum_if_needed now).last_size) ∧
    (8 ≤ m.last_size → 8 ≤ (m.insert now k v ttl).2.last_size) ∧
    (m.remove now k).2.last_size = m.last_size ∧
    (m.remove_entry now k).2.last_size = m.last_size ∧
    (m.get_mut_write now k v').last_size = m.last_size ∧
    8 ≤ (m.shrink_to_fit now).last_size ∧
    8 ≤ (m.shrink_to now min_c).last_size ∧
    (8 ≤ s.toMap.last_size → 8 ≤ (s.insert now kS ttlS).2.toMap.last_size) ∧
    (s.take now kS).2.toMap.last_size = s.toMap.last_size := by
  have hvac : ∀ {W : Type} (m' : ExpiringMap K W),
      8 ≤ (m'.vacuum now).last_size := by
    intro W m'
    rw [vacuum_last_size]
    exact Nat.le_max_right _ _
  have hvin : ∀ {W : Type} (m' : ExpiringMap K W),
      8 ≤ m'.last_size → 8 ≤ (m'.vacuum_if_needed now).last_size := by
    intro W m' hm
    unfold ExpiringMap.vacuum_if_needed
    split
    · exact hvac m'
    · exact hm
  have hins : (m.insert now k v ttl).2.last_size =
      (m.vacuum_if_needed now).last_size := by
    unfold ExpiringMap.insert storeInsert
    rfl
  have hsins : (s.insert now kS ttlS).2.toMap.last_size =
      (s.toMap.vacuum_if_needed now).last_size := by
    unfold ExpiringSet.insert storeInsert
    rfl
  refine ⟨rfl, rfl, rfl, rfl, rfl, rfl, vacuum_last_size now m, hvac m, hvin m,
    ?_, rfl, rfl, rfl, hvac m, hvac m, ?_, rfl⟩
  · intro hm
    rw [hins]
    exact hvin m hm
  · intro hs
    rw [hsins]
    exact hvin s.toMap hs

/-- Witness for C8: the implicative conjuncts discharged on the fresh empty
map and set, whose `last_size` is exactly the floor 8. -/
theorem last_size_invariant_witness :
    8 ≤ ((⟨8, []⟩ : ExpiringMap Nat Nat).vacuum_if_needed 0).last_size ∧
    8 ≤ (((⟨8, []⟩ : ExpiringMap Nat Nat).insert 0 1 2 3).2).last_size ∧
    8 ≤ (((⟨⟨8, []⟩⟩ : ExpiringSet Nat).insert 0 1 3).2).toMap.last_size := by
  have h := last_size_invariant 0 0 0 (⟨8, []⟩ : ExpiringMap Nat Nat) 1 2 2 3
    (⟨⟨8, []⟩⟩ : ExpiringSet Nat) 1 3
  obtain ⟨-, -, -, -, -, -, -, -, h9, h10, -, -, -, -, -, h16, -⟩ := h
  exact ⟨h9 (by decide), h10 (by decide), h16 (by decide)⟩

/-- Claim C9: `ExpiringSet::insert(k, t)` leaves the underlying container in
exactly the state `ExpiringMap::insert(k, (), t)` would (vacuum-if-needed
included) and returns true exactly when a live entry previously existed at
`k`; `ExpiringSet::take(k)` removes the entry at `k` and returns the stored
key exactly when a live entry existed there. -/
theorem set_refines_map (s : ExpiringSet K) (now : Nat) (k : K) (ttl : Nat)
    (hnd : NodupKeys s.toMap.inner) :
    (s.insert now k ttl).2.toMap = (s.toMap.insert now k () ttl).2 ∧
    (s.insert now k ttl).1 = (s.toMap.insert now k () ttl).1.isSome ∧
    ((s.insert now k ttl).1 = true ↔
      ∃ e, storeGet k s.toMap.inner = some e ∧ e.not_expired now = true) ∧
    (∀ k', (s.take now k).1 = some k' ↔
      ∃ e : ExpiryValue Unit,
        storeFind k s.toMap.inner = some (k', e) ∧
          e.not_expired now = true) ∧
    (s.take now k).2.toMap.inner = storeErase k s.toMap.inner := by
  refine ⟨rfl, rfl, ?_, ?_, rfl⟩
  · have h1 : (s.insert now k ttl).1 =
        ((s.toMap.insert now k () ttl).1).isSome := rfl
    rw [h1, insert_ret hnd]
    cases hg : storeGet k s.toMap.inner with
    | none => simp [Option.filter]
    | some e =>
      by_cases hl : e.not_expired now = true <;> simp [Option.filter, hl]
  · intro k'
    unfold ExpiringSet.take ExpiringMap.remove_entry
    simp only []
    cases hf : storeFind k s.toMap.inner with
    | none => simp [Option.filter]
    | some q =>
      cases q with
      | mk a b =>
        by_cases hl : b.not_expired now = true <;> simp [Option.filter, hl]
        exact ⟨fun hh => ⟨b, ⟨hh, rfl⟩, hl⟩, fun ⟨e, hpair, _⟩ => hpair.1⟩

/-- Witness for C9: a set holding one live entry at key 0; re-inserting
reports a live previous entry, and `take` returns the stored key. -/
theorem set_refines_map_witness :
    let s : ExpiringSet Nat := ⟨⟨8, [(0, ⟨0, 5, ()⟩)]⟩⟩
    (s.insert 1 0 7).2.toMap = (s.toMap.insert 1 0 () 7).2 ∧
    (s.insert 1 0 7).1 = true ∧
    (s.take 1 0).1 = some 0 := by
  have h := set_refines_map ⟨⟨8, [(0, ⟨0, 5, ()⟩)]⟩⟩ 1 0 7 (by decide)
  exact ⟨h.1, h.2.2.1.mpr ⟨⟨0, 5, ()⟩, by decide, by decide⟩,
    (h.2.2.2.1 0).mpr ⟨⟨0, 5, ()⟩, by decide, by decide⟩⟩

theorem length_filter_not_aux {α : Type} (p : α → Bool) (l : List α) :
    (l.filter p).length + (l.filter (fun a => !(p a))).length = l.length := by
  induction l with
  | nil => rfl
  | cons a l ih =>
    by_cases h : p a = true <;> simp [List.filter_cons, h] <;> omega

/-- Claim C10: `len()` counts the physically stored entries, expired ones
included (live count plus expired count), `is_empty()` holds exactly when
`len()` is 0, and a reachable state exists that is non-empty with positive
length while `contains_key` is false for every key. -/
theorem len_physical_spec (now : Nat) (m : ExpiringMap K V) :
    m.len = m.inner.length ∧
    (m.is_empty = true ↔ m.len = 0) ∧
    (m.inner.filter (fun p => p.2.not_expired now)).length +
      (m.inner.filter (fun p => p.2.expired now)).length = m.len ∧
    ((ExpiringMap.new : ExpiringMap Nat Nat).insert 0 0 0 1).2.is_empty
        = false ∧
    ((ExpiringMap.new : ExpiringMap Nat Nat).insert 0 0 0 1).2.len = 1 ∧
    (∀ k' : Nat,
      ((ExpiringMap.new : ExpiringMap Nat Nat).insert 0 0 0 1).2.contains_key
          5 k' = false) := by
  refine ⟨rfl, ?_, ?_, by decide, by decide, ?_⟩
  · unfold ExpiringMap.is_empty ExpiringMap.len
    simp
  · have hcongr : m.inner.filter (fun p => p.2.expired now) =
        m.inner.filter (fun p => !(p.2.not_expired now)) := by
      apply List.filter_congr
      intro p _
      simp [ExpiryValue.not_expired]
    rw [hcongr]
    exact length_filter_not_aux _ m.inner
  · intro k'
    by_cases h : k' = 0
    · subst h
      decide
    · have hm : ((ExpiringMap.new : ExpiringMap Nat Nat).insert 0 0 0 1).2.inner
          = [(0, ⟨0, 1, 0⟩)] := by decide
      have hf : storeFind k'
          ((ExpiringMap.new : ExpiringMap Nat Nat).insert 0 0 0 1).2.inner
          = none := by
        rw [hm, storeFind_cons_of_neg _ _ (fun h0 => h h0.symm)]
        rfl
      have hg : storeGet k'
          ((ExpiringMap.new : ExpiringMap Nat Nat).insert 0 0 0 1).2.inner
          = none := by
        unfold storeGet
        rw [hf]
        rfl
      simp [ExpiringMap.contains_key, ExpiringMap.get_meta, hg, Option.filter]

/-- Claim C7: `expired()` is true iff the elapsed time since `inserted` is at
least `ttl`; `remaining()` is the saturating difference `ttl - elapsed`, is
zero exactly when the entry is expired, and is monotonically non-increasing
as the observation time grows. -/
theorem expiry_semantics {T : Type} (e : ExpiryValue T) (now now' : Nat) :
    (e.expired now = true ↔ e.ttl ≤ e.elapsed now) ∧
    e.remaining now = e.ttl - e.elapsed now ∧
    (e.remaining now = 0 ↔ e.expired now = true) ∧
    (now ≤ now' → e.remaining now' ≤ e.remaining now) := by
  refine ⟨e.expired_iff now, rfl, ?_, ?_⟩
  · simp [ExpiryValue.expired]
  · intro h
    unfold ExpiryValue.remaining ExpiryValue.elapsed
    omega

/-- Witness for C7: a concrete entry evaluated at two concrete times. -/
theorem expiry_semantics_witness :
    let e : ExpiryValue Nat := ⟨2, 5, 0⟩
    (e.expired 4 = true ↔ e.ttl ≤ e.elapsed 4) ∧
    e.remaining 4 = e.ttl - e.elapsed 4 ∧
    (e.remaining 4 = 0 ↔ e.expired 4 = true) ∧
    e.remaining 9 ≤ e.remaining 4 :=
  ⟨(expiry_semantics ⟨2, 5, 0⟩ 4 9).1, (expiry_semantics ⟨2, 5, 0⟩ 4 9).2.1,
   (expiry_semantics ⟨2, 5, 0⟩ 4 9).2.2.1,
   (expiry_semantics ⟨2, 5, 0⟩ 4 9).2.2.2 (by decide)⟩

end ExpiringMapSpec
